import Mathlib

/-!
Verification of the FNO multi-blob surrogate (src/FNO_Multiple.py).

Shallow embedding conventions:
- A 5-axis torch tensor is a `Tensor5 α`: five explicit axis sizes plus a total
  indexing function; out-of-range indices are irrelevant to every statement.
- Float arithmetic is idealised as exact arithmetic: ℝ where the source uses
  square roots / transcendental functions (normalizer statistics, GELU, FFT),
  ℚ where the source is purely rational (the min-max and range normalizers),
  so that witnesses can be checked by `decide`.
- torch.fft.rfft2 / irfft2 are embedded as the discrete Fourier transform sums
  they compute (Hermitian half-spectrum convention of the library).
- The one place where IEEE non-finiteness matters (LpLoss dividing by a zero
  norm) is embedded with an `Option ℝ` scalar: `none` stands for a non-finite
  float (inf or NaN); division by zero is the only source of `none` here, and
  non-finiteness propagates through sums and means exactly as in IEEE floats.
-/

/-- Five-axis tensor: axis sizes `n0..n4` plus the indexing function. -/
structure Tensor5 (α : Type) where
  n0 : ℕ
  n1 : ℕ
  n2 : ℕ
  n3 : ℕ
  n4 : ℕ
  data : ℕ → ℕ → ℕ → ℕ → ℕ → α

/-- Elementwise map over a tensor (used for activations such as F.gelu). -/
def tmap (f : ℝ → ℝ) (t : Tensor5 ℝ) : Tensor5 ℝ :=
  { t with data := fun a b c d e => f (t.data a b c d e) }

/-- Elementwise sum of two tensors of equal shape (torch `x1 + x2`);
the recorded sizes are those of the left operand. -/
def tadd (s t : Tensor5 ℝ) : Tensor5 ℝ :=
  { s with data := fun a b c d e => s.data a b c d e + t.data a b c d e }

/-- Gauss error function, used by the exact (erf-based) form of F.gelu. -/
noncomputable def erf (x : ℝ) : ℝ :=
  (2 / Real.sqrt Real.pi) * ∫ t in (0:ℝ)..x, Real.exp (-t^2)

/-- Exact GELU as computed by torch.nn.functional.gelu (default mode):
gelu x = x·Φ(x) with Φ the standard normal CDF. -/
noncomputable def gelu (x : ℝ) : ℝ :=
  x * (1 + erf (x / Real.sqrt 2)) / 2

/-! ## SpectralConv2d (src/FNO_Multiple.py lines 377-416) -/

/-- State of a constructed SpectralConv2d module: the six constructor
arguments plus the two complex weight tensors
(in_time, out_time, in_var, out_var, modes1, modes2). -/
structure SpectralConv2dLayer where
  in_channels_time : ℕ
  out_channels_time : ℕ
  in_channels_dim : ℕ
  out_channels_dim : ℕ
  modes1 : ℕ
  modes2 : ℕ
  weights1 : ℕ → ℕ → ℕ → ℕ → ℕ → ℕ → ℂ
  weights2 : ℕ → ℕ → ℕ → ℕ → ℕ → ℕ → ℂ

/-- SpectralConv2d.__init__: stores the channel/mode counts and creates the
two weight tensors as `scale * torch.rand(...)` with
`scale = 1/(in_channels_time*out_channels_time)`; `r1` and `r2` are the
sampled uniform values (the randomness is externalised).  The constructor body
performs no validation and contains no fallible operation; it is embedded in
`Except` so that "construction-time failure" is expressible, and it always
returns `Except.ok`. -/
noncomputable def SpectralConv2d.init (in_channels_time out_channels_time in_channels_dim out_channels_dim
    modes1 modes2 : ℕ) (r1 r2 : ℕ → ℕ → ℕ → ℕ → ℕ → ℕ → ℂ) :
    Except String SpectralConv2dLayer :=
  Except.ok
    { in_channels_time := in_channels_time
      out_channels_time := out_channels_time
      in_channels_dim := in_channels_dim
      out_channels_dim := out_channels_dim
      modes1 := modes1
      modes2 := modes2
      weights1 := fun i j p q x y =>
        ((1 : ℂ) / (in_channels_time * out_channels_time)) * r1 i j p q x y
      weights2 := fun i j p q x y =>
        ((1 : ℂ) / (in_channels_time * out_channels_time)) * r2 i j p q x y }

/-- Whether an `Except` result is a successful construction. -/
def constructionSucceeds (e : Except String SpectralConv2dLayer) : Bool :=
  match e with
  | .ok _ => true
  | .error _ => false

/-- SpectralConv2d.compl_mul2d: einsum "bipxy,ijpqxy->bjqxy", the complex
contraction over the in-time channel axis (size `ct`) and the in-variable
channel axis (size `cd`). -/
noncomputable def compl_mul2d (ct cd : ℕ)
    (input : ℕ → ℕ → ℕ → ℕ → ℕ → ℂ)
    (weights : ℕ → ℕ → ℕ → ℕ → ℕ → ℕ → ℂ) :
    ℕ → ℕ → ℕ → ℕ → ℕ → ℂ :=
  fun b j q x y =>
    ∑ i in Finset.range ct, ∑ p in Finset.range cd,
      input b i p x y * weights i j p q x y

/-- torch.fft.rfft2: 2D DFT over the two trailing (spatial) axes of a real
tensor, keeping the Hermitian half spectrum (last axis size `n4/2 + 1`). -/
noncomputable def rfft2 (t : Tensor5 ℝ) : Tensor5 ℂ where
  n0 := t.n0
  n1 := t.n1
  n2 := t.n2
  n3 := t.n3
  n4 := t.n4 / 2 + 1
  data := fun b i p kx ky =>
    ∑ x in Finset.range t.n3, ∑ y in Finset.range t.n4,
      (t.data b i p x y : ℂ) *
        Complex.exp (-(2 * Real.pi * Complex.I) *
          ((kx : ℂ) * x / t.n3 + (ky : ℂ) * y / t.n4))

/-- Hermitian extension of a half spectrum to the full `sx × sy` grid, as
irfft2 interprets its input. -/
noncomputable def hermitianExtend (sx sy : ℕ)
    (spec : ℕ → ℕ → ℕ → ℕ → ℕ → ℂ) : ℕ → ℕ → ℕ → ℕ → ℕ → ℂ :=
  fun b i p kx ky =>
    if ky < sy / 2 + 1 then spec b i p kx ky
    else (starRingEnd ℂ) (spec b i p ((sx - kx) % sx) ((sy - ky) % sy))

/-- torch.fft.irfft2 with explicit output sizes `s = (sx, sy)`: inverse 2D DFT
of the Hermitian-extended spectrum; the output spatial sizes are exactly the
`s` argument. -/
noncomputable def irfft2 (sx sy : ℕ) (spec : Tensor5 ℂ) : Tensor5 ℝ where
  n0 := spec.n0
  n1 := spec.n1
  n2 := spec.n2
  n3 := sx
  n4 := sy
  data := fun b i p x y =>
    ((∑ kx in Finset.range sx, ∑ ky in Finset.range sy,
        hermitianExtend sx sy spec.data b i p kx ky *
          Complex.exp ((2 * Real.pi * Complex.I) *
            ((kx : ℂ) * x / sx + (ky : ℂ) * y / sy))) / ((sx : ℂ) * sy)).re

/-- Final state of the output spectrum `out_ft` built by
SpectralConv2d.forward: zero-initialised, then the low-frequency block
(rows < modes1, columns < modes2) is assigned the weights1 contraction, then
the wrap-around block (the last modes1 rows, columns < modes2) is assigned the
weights2 contraction, the second assignment overwriting the first wherever the
two row ranges overlap.  `nx` is the spectrum row count `x.size(-2)`. -/
noncomputable def SpectralConv2d.out_ft (L : SpectralConv2dLayer) (nx : ℕ)
    (x_ft : ℕ → ℕ → ℕ → ℕ → ℕ → ℂ) : ℕ → ℕ → ℕ → ℕ → ℕ → ℂ :=
  fun b j q kx ky =>
    if nx - L.modes1 ≤ kx ∧ kx < nx ∧ ky < L.modes2 then
      compl_mul2d L.in_channels_time L.in_channels_dim
        (fun b2 i p r y => x_ft b2 i p (nx - L.modes1 + r) y) L.weights2
        b j q (kx - (nx - L.modes1)) ky
    else if kx < L.modes1 ∧ ky < L.modes2 then
      compl_mul2d L.in_channels_time L.in_channels_dim x_ft L.weights1 b j q kx ky
    else 0

/-- SpectralConv2d.forward: rfft2, the two block assignments into the
zero-initialised spectrum of shape
(batch, out_channels_time, out_channels_dim, x.size(-2), x.size(-1)/2+1),
then irfft2 back at the input's spatial sizes. -/
noncomputable def SpectralConv2d.forward (L : SpectralConv2dLayer)
    (x : Tensor5 ℝ) : Tensor5 ℝ :=
  let x_ft := rfft2 x
  let out_ft : Tensor5 ℂ :=
    { n0 := x.n0
      n1 := L.out_channels_time
      n2 := L.out_channels_dim
      n3 := x.n3
      n4 := x.n4 / 2 + 1
      data := SpectralConv2d.out_ft L x.n3 x_ft.data }
  irfft2 x.n3 x.n4 out_ft

/-! ## FNO2d_Multi (src/FNO_Multiple.py lines 420-541) -/

/-- A 1x1x1 nn.Conv3d on a latent tensor laid out (batch, width, var, x, y):
a per-point linear map (with bias) over the width-channel axis only, the
pointwise skip path `w0..w5`.  `inC` is the layer's in-channel count. -/
def conv3d1 (inC : ℕ) (W : ℕ → ℕ → ℝ) (bias : ℕ → ℝ) (t : Tensor5 ℝ) : Tensor5 ℝ :=
  { t with data := fun b o v x y =>
      (∑ c in Finset.range inC, W o c * t.data b c v x y) + bias o }

/-- nn.Linear applied over the trailing channel axis of a 5-axis tensor:
out channel k = sum over the layer's `inF` in-features plus bias. -/
def linearLast (inF outF : ℕ) (W : ℕ → ℕ → ℝ) (bias : ℕ → ℝ) (t : Tensor5 ℝ) : Tensor5 ℝ where
  n0 := t.n0
  n1 := t.n1
  n2 := t.n2
  n3 := t.n3
  n4 := outF
  data := fun b v x y k =>
    (∑ c in Finset.range inF, W k c * t.data b v x y c) + bias k

/-- get_grid followed by torch.cat((x, grid), dim=-1): appends the two fixed
coordinate channels (x_grid broadcast over y, y_grid broadcast over x) after
the `t.n4` time channels. -/
def concatGrid (gx gy : ℕ → ℝ) (t : Tensor5 ℝ) : Tensor5 ℝ :=
  { t with
    n4 := t.n4 + 2
    data := fun b v x y c =>
      if c < t.n4 then t.data b v x y c
      else if c = t.n4 then gx x
      else gy y }

/-- x.permute(0, 4, 1, 2, 3): (batch, var, x, y, ch) to (batch, ch, var, x, y). -/
def permuteToLatent (t : Tensor5 ℝ) : Tensor5 ℝ where
  n0 := t.n0
  n1 := t.n4
  n2 := t.n1
  n3 := t.n2
  n4 := t.n3
  data := fun b c v x y => t.data b v x y c

/-- x.permute(0, 2, 3, 4, 1): (batch, ch, var, x, y) to (batch, var, x, y, ch). -/
def permuteFromLatent (t : Tensor5 ℝ) : Tensor5 ℝ where
  n0 := t.n0
  n1 := t.n2
  n2 := t.n3
  n3 := t.n4
  n4 := t.n1
  data := fun b v x y c => t.data b c v x y

/-- nn.Identity: self.norm in the source (instance norm is commented out). -/
def idNorm (t : Tensor5 ℝ) : Tensor5 ℝ := t

/-- The six-block operator stack of FNO2d_Multi.forward, exactly as written in
the source: block i computes `norm(conv_i(norm(x))) + w_i(x)`, and the
elementwise activation (`F.gelu` in the source) is applied after blocks 1-3
only; blocks 4-6 pass the raw sum forward.  The six spectral modules and six
pointwise modules are the function arguments `conv i` and `w i`, i = 0..5. -/
def operatorBlockStack (act : ℝ → ℝ) (conv w : ℕ → Tensor5 ℝ → Tensor5 ℝ)
    (x : Tensor5 ℝ) : Tensor5 ℝ :=
  let x1 := tmap act (tadd (idNorm (conv 0 (idNorm x))) (w 0 x))
  let x2 := tmap act (tadd (idNorm (conv 1 (idNorm x1))) (w 1 x1))
  let x3 := tmap act (tadd (idNorm (conv 2 (idNorm x2))) (w 2 x2))
  let x4 := tadd (idNorm (conv 3 (idNorm x3))) (w 3 x3)
  let x5 := tadd (idNorm (conv 4 (idNorm x4))) (w 4 x4)
  tadd (idNorm (conv 5 (idNorm x5))) (w 5 x5)

/-- The six-block stack as the specification sentence describes it: each block
computes SpectralConv(latent) + PointwiseLinear(latent), and exactly blocks
1-4 apply the nonlinearity to the sum while blocks 5-6 pass the raw sum
forward.  Written from the spec's words, to be compared with
`operatorBlockStack` (which is written from the source). -/
def blockStackSpecClaim (act : ℝ → ℝ) (conv w : ℕ → Tensor5 ℝ → Tensor5 ℝ)
    (x : Tensor5 ℝ) : Tensor5 ℝ :=
  (List.range 6).foldl
    (fun y i =>
      let s := tadd (conv i y) (w i y)
      if i < 4 then tmap act s else s) x

/-- The six-block stack as the amended sentence describes it: exactly blocks
1-3 apply the nonlinearity to the sum; blocks 4-6 pass the raw sum forward. -/
def blockStackSpecAmended (act : ℝ → ℝ) (conv w : ℕ → Tensor5 ℝ → Tensor5 ℝ)
    (x : Tensor5 ℝ) : Tensor5 ℝ :=
  (List.range 6).foldl
    (fun y i =>
      let s := tadd (conv i y) (w i y)
      if i < 3 then tmap act s else s) x

/-- State of a constructed FNO2d_Multi model: configuration sizes, the fixed
coordinate arrays consumed by get_grid, and every learned weight used by
forward (fc0, the six SpectralConv2d layers, the six 1x1x1 Conv3d layers,
fc1, fc2).  The unused fc_d0/fc_d1/fc_d2 heads are omitted: forward never
reads them. -/
structure FNO2dMulti where
  T_in : ℕ
  num_vars : ℕ
  step : ℕ
  width : ℕ
  modes1 : ℕ
  modes2 : ℕ
  gridX : ℕ → ℝ
  gridY : ℕ → ℝ
  fc0w : ℕ → ℕ → ℝ
  fc0b : ℕ → ℝ
  convs : ℕ → SpectralConv2dLayer
  wW : ℕ → ℕ → ℕ → ℝ
  wB : ℕ → ℕ → ℝ
  fc1w : ℕ → ℕ → ℝ
  fc1b : ℕ → ℝ
  fc2w : ℕ → ℕ → ℝ
  fc2b : ℕ → ℝ

/-- The lift head of FNO2d_Multi.forward: append the two coordinate channels,
then fc0 = nn.Linear(T_in + 2, width) over the channel axis. -/
def FNO2dMulti.liftHead (M : FNO2dMulti) (x : Tensor5 ℝ) : Tensor5 ℝ :=
  linearLast (M.T_in + 2) M.width M.fc0w M.fc0b (concatGrid M.gridX M.gridY x)

/-- The projection head of FNO2d_Multi.forward:
fc1 = nn.Linear(width, 128), then F.gelu, then fc2 = nn.Linear(128, step),
with no activation after fc2. -/
noncomputable def FNO2dMulti.projHead (M : FNO2dMulti) (t : Tensor5 ℝ) : Tensor5 ℝ :=
  linearLast 128 M.step M.fc2w M.fc2b (tmap gelu (linearLast M.width 128 M.fc1w M.fc1b t))

/-- FNO2d_Multi.forward: grid-embed and lift, permute to channel-first latent
layout, the six-block operator stack with F.gelu, permute back, project. -/
noncomputable def FNO2dMulti.forward (M : FNO2dMulti) (x : Tensor5 ℝ) : Tensor5 ℝ :=
  let xl := permuteToLatent (M.liftHead x)
  let xs := operatorBlockStack gelu
    (fun i => SpectralConv2d.forward (M.convs i))
    (fun i => conv3d1 M.width (M.wW i) (M.wB i)) xl
  M.projHead (permuteFromLatent xs)

/-! ## Normalisation functions (src/FNO_Multiple.py lines 84-210)

The gaussian normalizers involve torch.std (a square root) and are embedded
over ℝ; the range / min-max normalizers are purely rational and are embedded
over ℚ.  Fitted data is an `n × d` array given as an indexing function
(sample axis 0, remaining axes flattened into one feature axis, matching the
`reshape(s[0], -1)` views in the source). -/

/-- UnitGaussianNormalizer: torch.mean(x, 0), the per-feature mean over the
sample axis. -/
noncomputable def UnitGaussianNormalizer.mean (n : ℕ) (x : ℕ → ℕ → ℝ) (j : ℕ) : ℝ :=
  (∑ i in Finset.range n, x i j) / n

/-- UnitGaussianNormalizer: torch.std(x, 0), the per-feature unbiased standard
deviation (denominator n - 1) over the sample axis. -/
noncomputable def UnitGaussianNormalizer.std (n : ℕ) (x : ℕ → ℕ → ℝ) (j : ℕ) : ℝ :=
  Real.sqrt ((∑ i in Finset.range n, (x i j - UnitGaussianNormalizer.mean n x j) ^ 2) /
    ((n : ℝ) - 1))

/-- UnitGaussianNormalizer.encode: (x - mean) / (std + eps), per feature. -/
noncomputable def UnitGaussianNormalizer.encode (n : ℕ) (x : ℕ → ℕ → ℝ) (eps : ℝ)
    (y : ℕ → ℕ → ℝ) : ℕ → ℕ → ℝ :=
  fun i j => (y i j - UnitGaussianNormalizer.mean n x j) /
    (UnitGaussianNormalizer.std n x j + eps)

/-- UnitGaussianNormalizer.decode (sample_idx = None branch):
x * (std + eps) + mean, per feature. -/
noncomputable def UnitGaussianNormalizer.decode (n : ℕ) (x : ℕ → ℕ → ℝ) (eps : ℝ)
    (y : ℕ → ℕ → ℝ) : ℕ → ℕ → ℝ :=
  fun i j => y i j * (UnitGaussianNormalizer.std n x j + eps) +
    UnitGaussianNormalizer.mean n x j

/-- GaussianNormalizer: torch.mean(x), the global mean over all n*d entries. -/
noncomputable def GaussianNormalizer.mean (n d : ℕ) (x : ℕ → ℕ → ℝ) : ℝ :=
  (∑ i in Finset.range n, ∑ j in Finset.range d, x i j) / ((n : ℝ) * d)

/-- GaussianNormalizer: torch.std(x), the global unbiased standard deviation
(denominator n*d - 1) over all entries. -/
noncomputable def GaussianNormalizer.std (n d : ℕ) (x : ℕ → ℕ → ℝ) : ℝ :=
  Real.sqrt ((∑ i in Finset.range n, ∑ j in Finset.range d,
    (x i j - GaussianNormalizer.mean n d x) ^ 2) / ((n : ℝ) * d - 1))

/-- GaussianNormalizer.encode: (x - mean) / (std + eps). -/
noncomputable def GaussianNormalizer.encode (n d : ℕ) (x : ℕ → ℕ → ℝ) (eps : ℝ)
    (y : ℕ → ℕ → ℝ) : ℕ → ℕ → ℝ :=
  fun i j => (y i j - GaussianNormalizer.mean n d x) / (GaussianNormalizer.std n d x + eps)

/-- GaussianNormalizer.decode: x * (std + eps) + mean. -/
noncomputable def GaussianNormalizer.decode (n d : ℕ) (x : ℕ → ℕ → ℝ) (eps : ℝ)
    (y : ℕ → ℕ → ℝ) : ℕ → ℕ → ℝ :=
  fun i j => y i j * (GaussianNormalizer.std n d x + eps) + GaussianNormalizer.mean n d x

/-- RangeNormalizer: torch.min(x, 0)[0].view(-1), the per-feature minimum over
the sample axis (n samples). -/
def RangeNormalizer.mymin (n : ℕ) (x : ℕ → ℕ → ℚ) (j : ℕ) : ℚ :=
  ((List.range n).map (fun i => x i j)).foldl min (x 0 j)

/-- RangeNormalizer: torch.max(x, 0)[0].view(-1), the per-feature maximum over
the sample axis. -/
def RangeNormalizer.mymax (n : ℕ) (x : ℕ → ℕ → ℚ) (j : ℕ) : ℚ :=
  ((List.range n).map (fun i => x i j)).foldl max (x 0 j)

/-- RangeNormalizer: self.a = (high - low) / (mymax - mymin), per feature. -/
def RangeNormalizer.a (n : ℕ) (x : ℕ → ℕ → ℚ) (low high : ℚ) (j : ℕ) : ℚ :=
  (high - low) / (RangeNormalizer.mymax n x j - RangeNormalizer.mymin n x j)

/-- RangeNormalizer: self.b = -a * mymax + high, per feature. -/
def RangeNormalizer.b (n : ℕ) (x : ℕ → ℕ → ℚ) (low high : ℚ) (j : ℕ) : ℚ :=
  -(RangeNormalizer.a n x low high j) * RangeNormalizer.mymax n x j + high

/-- RangeNormalizer.encode: a*x + b on the (sample, flattened-feature) view. -/
def RangeNormalizer.encode (n : ℕ) (x : ℕ → ℕ → ℚ) (low high : ℚ)
    (y : ℕ → ℕ → ℚ) : ℕ → ℕ → ℚ :=
  fun i j => RangeNormalizer.a n x low high j * y i j + RangeNormalizer.b n x low high j

/-- RangeNormalizer.decode: (x - b) / a on the same view. -/
def RangeNormalizer.decode (n : ℕ) (x : ℕ → ℕ → ℚ) (low high : ℚ)
    (y : ℕ → ℕ → ℚ) : ℕ → ℕ → ℚ :=
  fun i j => (y i j - RangeNormalizer.b n x low high j) / RangeNormalizer.a n x low high j

/-- MinMax_Normalizer: torch.min(x), the single global minimum over all n*d
entries (row minima folded with min). -/
def MinMax_Normalizer.mymin (n d : ℕ) (x : ℕ → ℕ → ℚ) : ℚ :=
  ((List.range n).map (fun i => ((List.range d).map (fun j => x i j)).foldl min (x i 0))).foldl
    min (x 0 0)

/-- MinMax_Normalizer: torch.max(x), the single global maximum. -/
def MinMax_Normalizer.mymax (n d : ℕ) (x : ℕ → ℕ → ℚ) : ℚ :=
  ((List.range n).map (fun i => ((List.range d).map (fun j => x i j)).foldl max (x i 0))).foldl
    max (x 0 0)

/-- MinMax_Normalizer: self.a = (high - low) / (mymax - mymin), one scalar. -/
def MinMax_Normalizer.a (n d : ℕ) (x : ℕ → ℕ → ℚ) (low high : ℚ) : ℚ :=
  (high - low) / (MinMax_Normalizer.mymax n d x - MinMax_Normalizer.mymin n d x)

/-- MinMax_Normalizer: self.b = -a * mymax + high, one scalar. -/
def MinMax_Normalizer.b (n d : ℕ) (x : ℕ → ℕ → ℚ) (low high : ℚ) : ℚ :=
  -(MinMax_Normalizer.a n d x low high) * MinMax_Normalizer.mymax n d x + high

/-- MinMax_Normalizer.encode: a*x + b, elementwise (the reshape/view pair in
the source is index bookkeeping only, since a and b are scalars). -/
def MinMax_Normalizer.encode (n d : ℕ) (x : ℕ → ℕ → ℚ) (low high : ℚ)
    (y : ℕ → ℕ → ℚ) : ℕ → ℕ → ℚ :=
  fun i j => MinMax_Normalizer.a n d x low high * y i j + MinMax_Normalizer.b n d x low high

/-- MinMax_Normalizer.decode: (x - b) / a, elementwise. -/
def MinMax_Normalizer.decode (n d : ℕ) (x : ℕ → ℕ → ℚ) (low high : ℚ)
    (y : ℕ → ℕ → ℚ) : ℕ → ℕ → ℚ :=
  fun i j => (y i j - MinMax_Normalizer.b n d x low high) / MinMax_Normalizer.a n d x low high

/-! ## LpLoss (src/FNO_Multiple.py lines 219-262) -/

/-- IEEE-aware division of two finite floats: non-finite (`none`) exactly when
the denominator is zero (x/0 is plus or minus infinity, 0/0 is NaN). -/
noncomputable def fdiv (a b : ℝ) : Option ℝ := if b = 0 then none else some (a / b)

/-- torch.norm(v, p, 1) on one row of the flattened batch view: the p-norm
(sum of |.|^p) ^ (1/p) over the d entries of the row. -/
noncomputable def pnorm (p : ℝ) (d : ℕ) (v : ℕ → ℝ) : ℝ :=
  (∑ j in Finset.range d, |v j| ^ p) ^ (1 / p)

/-- Sum of a batch of possibly non-finite per-example values in index order;
any non-finite entry makes the total non-finite (inf+x, NaN+x, inf-inf are
all non-finite in IEEE arithmetic). -/
noncomputable def osum (f : ℕ → Option ℝ) : ℕ → Option ℝ
  | 0 => some 0
  | (n+1) => Option.bind (osum f n) (fun s => Option.map (fun v => s + v) (f n))

/-- LpLoss.rel on a batch of nb examples, each flattened to d entries:
per-example relative norms diff_norms/y_norms with no guard on the
denominator, then (reduction = True) torch.mean when size_average else
torch.sum. -/
noncomputable def LpLoss.rel (p : ℝ) (sizeAverage : Bool) (nb d : ℕ)
    (x y : ℕ → ℕ → ℝ) : Option ℝ :=
  let ratios : ℕ → Option ℝ := fun e =>
    fdiv (pnorm p d (fun j => x e j - y e j)) (pnorm p d (y e))
  let s := osum ratios nb
  if sizeAverage then Option.map (fun v => v / nb) s else s

/-- LpLoss.__call__(x, y): delegates to self.rel(x, y). -/
noncomputable def LpLoss.call (p : ℝ) (sizeAverage : Bool) (nb d : ℕ)
    (x y : ℕ → ℕ → ℝ) : Option ℝ :=
  LpLoss.rel p sizeAverage nb d x y

/-! ## Autoregressive rollout (src/FNO_Multiple.py lines 689-709)

The time-channel axis of one batch is modelled as a `List ℝ`; `model` is the
single-step operator (its output is the `step`-length prediction `im`), and
`lossFn` the LpLoss call on one step.  State is (window xx, prediction buffer
pred, accumulated step loss); one transition of the Python loop body
`for t in range(0, T, step)` does
  y = yy[..., t:t+step]; im = model(xx); loss += myloss(im, y);
  pred = cat(pred, im)  (pred = im when t = 0, equal to [] ++ im);
  xx = cat(xx[..., step:], im). -/
def rolloutLoop (model : List ℝ → List ℝ) (lossFn : List ℝ → List ℝ → ℝ) (step : ℕ)
    (yy : List ℝ) : ℕ → ℕ → List ℝ × List ℝ × ℝ → List ℝ × List ℝ × ℝ
  | 0, _, s => s
  | (k+1), t, (xx, pred, l) =>
      rolloutLoop model lossFn step yy k (t + step)
        (xx.drop step ++ model xx, pred ++ model xx,
          l + lossFn (model xx) ((yy.drop t).take step))

/-- The rollout over the full horizon: the Python loop runs T_out/step
transitions (step divides T_out throughout the driver), starting from the
input window, an empty prediction buffer and zero accumulated loss. -/
def trainRollout (model : List ℝ → List ℝ) (lossFn : List ℝ → List ℝ → ℝ)
    (step T_out : ℕ) (xx yy : List ℝ) : List ℝ × List ℝ × ℝ :=
  rolloutLoop model lossFn step yy (T_out / step) 0 (xx, [], 0)

/-- The terminal full-horizon loss of one batch:
l2_full = myloss(pred, yy) computed on the complete prediction buffer after
the loop finishes. -/
def trainFullLoss (model : List ℝ → List ℝ) (lossFn : List ℝ → List ℝ → ℝ)
    (step T_out : ℕ) (xx yy : List ℝ) : ℝ :=
  lossFn (trainRollout model lossFn step T_out xx yy).2.1 yy

/-! ## Concrete instances used to evaluate the definitions -/

/-- A concrete all-zero complex weight tensor. -/
noncomputable def zeroW6 : ℕ → ℕ → ℕ → ℕ → ℕ → ℕ → ℂ := fun _ _ _ _ _ _ => 0

/-- A concrete spectral layer: every channel count and mode count 1, zero
weights. -/
noncomputable def sampleLayer : SpectralConv2dLayer where
  in_channels_time := 1
  out_channels_time := 1
  in_channels_dim := 1
  out_channels_dim := 1
  modes1 := 1
  modes2 := 1
  weights1 := zeroW6
  weights2 := zeroW6

/-- A concrete real input tensor on a 4 x 4 spatial grid. -/
def sampleX : Tensor5 ℝ := ⟨1, 1, 1, 4, 4, fun _ _ _ _ _ => 0⟩

/-- A module sending every tensor to the all-zero tensor of the same shape
(e.g. a SpectralConv2d or Conv3d whose weights and bias are all zero). -/
def zeroMap : Tensor5 ℝ → Tensor5 ℝ :=
  fun t => { t with data := fun _ _ _ _ _ => 0 }

/-- Concrete pointwise modules for the six blocks: blocks 0-2 are the zero
map (1x1x1 convolution with zero weight and bias), block 3 is the constant
map to -1 (zero weight, bias -1), blocks 4-5 are the identity (identity
weight, zero bias). -/
def cwBlocks : ℕ → Tensor5 ℝ → Tensor5 ℝ := fun i t =>
  if i = 3 then { t with data := fun _ _ _ _ _ => -1 }
  else if 4 ≤ i then t
  else { t with data := fun _ _ _ _ _ => 0 }

/-- A concrete all-zero input for the block stack. -/
def zeroX : Tensor5 ℝ := ⟨1, 1, 1, 1, 1, fun _ _ _ _ _ => 0⟩

/-- A concrete FNO2d_Multi model with unit sizes and zero weights. -/
noncomputable def sampleModel : FNO2dMulti where
  T_in := 1
  num_vars := 1
  step := 1
  width := 1
  modes1 := 1
  modes2 := 1
  gridX := fun _ => 0
  gridY := fun _ => 0
  fc0w := fun _ _ => 0
  fc0b := fun _ => 0
  convs := fun _ => sampleLayer
  wW := fun _ _ _ => 0
  wB := fun _ _ => 0
  fc1w := fun _ _ => 0
  fc1b := fun _ => 0
  fc2w := fun _ _ => 0
  fc2b := fun _ => 0

/-- A second concrete model whose every weight equals sampleModel's. -/
noncomputable def sampleModel2 : FNO2dMulti where
  T_in := 1
  num_vars := 1
  step := 1
  width := 1
  modes1 := 1
  modes2 := 1
  gridX := fun _ => 0
  gridY := fun _ => 0
  fc0w := fun _ _ => 0
  fc0b := fun _ => 0
  convs := fun _ => sampleLayer
  wW := fun _ _ _ => 0
  wB := fun _ _ => 0
  fc1w := fun _ _ => 0
  fc1b := fun _ => 0
  fc2w := fun _ _ => 0
  fc2b := fun _ => 0

/-- A concrete model input whose time-channel count matches sampleModel.T_in. -/
def sampleX5 : Tensor5 ℝ := ⟨1, 1, 2, 2, 1, fun _ _ _ _ _ => 0⟩

/-- Concrete fitted data for the ℚ normalizers: two samples, one feature,
values 0 and 1. -/
def sampleQData : ℕ → ℕ → ℚ := fun i _ => if i = 0 then 0 else 1

/-! ## Helper lemmas -/

/-- The error function is nonpositive on nonpositive arguments. -/
theorem erf_nonpos {x : ℝ} (hx : x ≤ 0) : erf x ≤ 0 := by
  have h1 : (0:ℝ) ≤ ∫ t in x..(0:ℝ), Real.exp (-t^2) := by
    apply intervalIntegral.integral_nonneg hx
    intro u _
    exact le_of_lt (Real.exp_pos _)
  have h2 : (∫ t in (0:ℝ)..x, Real.exp (-t^2)) = -(∫ t in x..(0:ℝ), Real.exp (-t^2)) :=
    intervalIntegral.integral_symm x 0
  have h3 : (∫ t in (0:ℝ)..x, Real.exp (-t^2)) ≤ 0 := by rw [h2]; linarith
  have h4 : (0:ℝ) ≤ 2 / Real.sqrt Real.pi := by positivity
  exact mul_nonpos_of_nonneg_of_nonpos h4 h3

/-- GELU does not fix -1 (in fact gelu (-1) ≥ -1/2). -/
theorem gelu_neg_one_ne : gelu (-1) ≠ -1 := by
  have he : erf (-1 / Real.sqrt 2) ≤ 0 := by
    apply erf_nonpos
    apply div_nonpos_of_nonpos_of_nonneg (by norm_num) (Real.sqrt_nonneg 2)
  unfold gelu
  intro h
  linarith

/-- Folding an idempotent-on-q operation over a list of copies of q gives q. -/
theorem foldl_const_of_all_eq (f : ℚ → ℚ → ℚ) (q : ℚ) (hf : f q q = q) :
    ∀ l : List ℚ, (∀ z ∈ l, z = q) → l.foldl f q = q := by
  intro l
  induction l with
  | nil => intro _; rfl
  | cons a t ih =>
      intro h
      rw [List.foldl_cons, h a (List.mem_cons_self a t), hf]
      exact ih (fun z hz => h z (List.mem_cons_of_mem a hz))

/-- The global minimum of a constant array is that constant. -/
theorem minmax_mymin_const (n d : ℕ) (x : ℕ → ℕ → ℚ) (q : ℚ) (hn : 0 < n) (hd : 0 < d)
    (hc : ∀ i, i < n → ∀ j, j < d → x i j = q) :
    MinMax_Normalizer.mymin n d x = q := by
  unfold MinMax_Normalizer.mymin
  rw [hc 0 hn 0 hd]
  apply foldl_const_of_all_eq min q (min_self q)
  intro z hz
  rw [List.mem_map] at hz
  obtain ⟨i, hi, rfl⟩ := hz
  rw [List.mem_range] at hi
  rw [hc i hi 0 hd]
  apply foldl_const_of_all_eq min q (min_self q)
  intro z hz
  rw [List.mem_map] at hz
  obtain ⟨j2, hj2, rfl⟩ := hz
  rw [List.mem_range] at hj2
  exact hc i hi j2 hj2

/-- The global maximum of a constant array is that constant. -/
theorem minmax_mymax_const (n d : ℕ) (x : ℕ → ℕ → ℚ) (q : ℚ) (hn : 0 < n) (hd : 0 < d)
    (hc : ∀ i, i < n → ∀ j, j < d → x i j = q) :
    MinMax_Normalizer.mymax n d x = q := by
  unfold MinMax_Normalizer.mymax
  rw [hc 0 hn 0 hd]
  apply foldl_const_of_all_eq max q (max_self q)
  intro z hz
  rw [List.mem_map] at hz
  obtain ⟨i, hi, rfl⟩ := hz
  rw [List.mem_range] at hi
  rw [hc i hi 0 hd]
  apply foldl_const_of_all_eq max q (max_self q)
  intro z hz
  rw [List.mem_map] at hz
  obtain ⟨j2, hj2, rfl⟩ := hz
  rw [List.mem_range] at hj2
  exact hc i hi j2 hj2

/-- The per-feature minimum of a constant array is that constant. -/
theorem range_mymin_const (n d : ℕ) (x : ℕ → ℕ → ℚ) (q : ℚ) (j : ℕ) (hn : 0 < n) (hj : j < d)
    (hc : ∀ i, i < n → ∀ j2, j2 < d → x i j2 = q) :
    RangeNormalizer.mymin n x j = q := by
  unfold RangeNormalizer.mymin
  rw [hc 0 hn j hj]
  apply foldl_const_of_all_eq min q (min_self q)
  intro z hz
  rw [List.mem_map] at hz
  obtain ⟨i, hi, rfl⟩ := hz
  rw [List.mem_range] at hi
  exact hc i hi j hj

/-- The per-feature maximum of a constant array is that constant. -/
theorem range_mymax_const (n d : ℕ) (x : ℕ → ℕ → ℚ) (q : ℚ) (j : ℕ) (hn : 0 < n) (hj : j < d)
    (hc : ∀ i, i < n → ∀ j2, j2 < d → x i j2 = q) :
    RangeNormalizer.mymax n x j = q := by
  unfold RangeNormalizer.mymax
  rw [hc 0 hn j hj]
  apply foldl_const_of_all_eq max q (max_self q)
  intro z hz
  rw [List.mem_map] at hz
  obtain ⟨i, hi, rfl⟩ := hz
  rw [List.mem_range] at hi
  exact hc i hi j hj

/-- A non-finite per-example value makes the whole batch sum non-finite. -/
theorem osum_eq_none (f : ℕ → Option ℝ) :
    ∀ nb e, e < nb → f e = none → osum f nb = none := by
  intro nb
  induction nb with
  | zero => intro e he; exact absurd he (Nat.not_lt_zero e)
  | succ n ih =>
      intro e he hf
      rcases Nat.lt_succ_iff_lt_or_eq.mp he with h | h
      · have hnone := ih e h hf
        show Option.bind (osum f n) _ = none
        rw [hnone]
        rfl
      · subst h
        show Option.bind (osum f e) (fun s => Option.map (fun v => s + v) (f e)) = none
        rw [hf]
        cases osum f e <;> rfl

/-- Window and buffer lengths through k transitions of the rollout loop:
as long as the model emits step channels per call and step ≤ T_in, the
window keeps length T_in and the buffer grows by step per transition. -/
theorem rolloutLoop_lengths (model : List ℝ → List ℝ) (lossFn : List ℝ → List ℝ → ℝ)
    (step T_in : ℕ) (yy : List ℝ)
    (hml : ∀ w, (model w).length = step) (hst : step ≤ T_in) (k : ℕ) :
    ∀ (t : ℕ) (xx pred : List ℝ) (l : ℝ), xx.length = T_in →
      (rolloutLoop model lossFn step yy k t (xx, pred, l)).1.length = T_in ∧
      (rolloutLoop model lossFn step yy k t (xx, pred, l)).2.1.length =
        pred.length + k * step := by
  induction k with
  | zero =>
      intro t xx pred l hxx
      exact ⟨hxx, by simp [rolloutLoop]⟩
  | succ k ih =>
      intro t xx pred l hxx
      have hwin : (List.drop step xx ++ model xx).length = T_in := by
        rw [List.length_append, List.length_drop, hml, hxx]
        omega
      have h := ih (t + step) (List.drop step xx ++ model xx) (pred ++ model xx)
        (l + lossFn (model xx) ((yy.drop t).take step)) hwin
      have hred : rolloutLoop model lossFn step yy (k+1) t (xx, pred, l) =
          rolloutLoop model lossFn step yy k (t + step)
            (List.drop step xx ++ model xx, pred ++ model xx,
              l + lossFn (model xx) ((yy.drop t).take step)) := rfl
      refine ⟨by rw [hred]; exact h.1, ?_⟩
      rw [hred, h.2, List.length_append, hml]
      ring

/-! ## Claim theorems -/

/-- C1: For every real input tensor, SpectralConv2d.forward writes only two
blocks of the zero-initialised output spectrum: the low-frequency block
(rows < modes1, columns < modes2) is the complex contraction of the input
spectrum with weights1 over the in-time and in-variable channel axes; the
wrap-around block (the last modes1 rows, columns < modes2) is the same
contraction with the independent weights2; every other entry remains zero;
and the inverse real FFT returns a tensor whose spatial sizes equal the
input's (and whose leading sizes are batch, out-time, out-variable).
Hypotheses: modes1 ≥ 1 (the Python suffix slice -modes1: requires it), and
the two row blocks do not overlap (2*modes1 ≤ x rows), as in the shipped
configuration (modes = 16, grid 106). -/
theorem C1_spectral_conv_blocks (L : SpectralConv2dLayer) (x : Tensor5 ℝ)
    (hm1 : 0 < L.modes1) (hno : 2 * L.modes1 ≤ x.n3) (b j q kx ky : ℕ) :
    (kx < L.modes1 → ky < L.modes2 →
      SpectralConv2d.out_ft L x.n3 (rfft2 x).data b j q kx ky =
        ∑ i in Finset.range L.in_channels_time, ∑ p in Finset.range L.in_channels_dim,
          (rfft2 x).data b i p kx ky * L.weights1 i j p q kx ky) ∧
    (x.n3 - L.modes1 ≤ kx → kx < x.n3 → ky < L.modes2 →
      SpectralConv2d.out_ft L x.n3 (rfft2 x).data b j q kx ky =
        ∑ i in Finset.range L.in_channels_time, ∑ p in Finset.range L.in_channels_dim,
          (rfft2 x).data b i p kx ky * L.weights2 i j p q (kx - (x.n3 - L.modes1)) ky) ∧
    (¬(kx < L.modes1 ∧ ky < L.modes2) → ¬(x.n3 - L.modes1 ≤ kx ∧ ky < L.modes2) →
      SpectralConv2d.out_ft L x.n3 (rfft2 x).data b j q kx ky = 0) ∧
    ((SpectralConv2d.forward L x).n0 = x.n0 ∧
     (SpectralConv2d.forward L x).n1 = L.out_channels_time ∧
     (SpectralConv2d.forward L x).n2 = L.out_channels_dim ∧
     (SpectralConv2d.forward L x).n3 = x.n3 ∧
     (SpectralConv2d.forward L x).n4 = x.n4) := by
  refine ⟨?_, ?_, ?_, rfl, rfl, rfl, rfl, rfl⟩
  · intro h1 h2
    have hnotwrap : ¬(x.n3 - L.modes1 ≤ kx ∧ kx < x.n3 ∧ ky < L.modes2) := by omega
    unfold SpectralConv2d.out_ft
    rw [if_neg hnotwrap, if_pos ⟨h1, h2⟩]
    rfl
  · intro hle hlt hky
    unfold SpectralConv2d.out_ft
    rw [if_pos ⟨hle, hlt, hky⟩]
    unfold compl_mul2d
    apply Finset.sum_congr rfl
    intro i _
    apply Finset.sum_congr rfl
    intro p _
    have hidx : x.n3 - L.modes1 + (kx - (x.n3 - L.modes1)) = kx := by omega
    dsimp only
    rw [hidx]
  · intro ha hb
    have hnotwrap : ¬(x.n3 - L.modes1 ≤ kx ∧ kx < x.n3 ∧ ky < L.modes2) :=
      fun h => hb ⟨h.1, h.2.2⟩
    unfold SpectralConv2d.out_ft
    rw [if_neg hnotwrap, if_neg ha]

/-- C1 witness: the theorem applied to the concrete layer and input, with
hypotheses discharged: both the zero entry outside the two blocks and the
spatial-size preservation of the forward output. -/
theorem C1_witness :
    0 < sampleLayer.modes1 ∧ 2 * sampleLayer.modes1 ≤ sampleX.n3 ∧
    SpectralConv2d.out_ft sampleLayer sampleX.n3 (rfft2 sampleX).data 0 0 0 2 0 = 0 ∧
    (SpectralConv2d.forward sampleLayer sampleX).n3 = sampleX.n3 ∧
    (SpectralConv2d.forward sampleLayer sampleX).n4 = sampleX.n4 :=
  ⟨by decide, by decide,
    (C1_spectral_conv_blocks sampleLayer sampleX (by decide) (by decide) 0 0 0 2 0).2.2.1
      (by decide) (by decide),
    (C1_spectral_conv_blocks sampleLayer sampleX (by decide) (by decide) 0 0 0 2 0).2.2.2.2.2.2.1,
    (C1_spectral_conv_blocks sampleLayer sampleX (by decide) (by decide) 0 0 0 2 0).2.2.2.2.2.2.2⟩

/-- C2 counterexample: with the GELU activation, the six-block stack of the
source (gelu after blocks 1-3 only) and the stack of the claim (gelu after
blocks 1-4) disagree on a concrete instantiation: spectral paths all zero,
block-4 pointwise path the constant -1, blocks 5-6 pointwise paths the
identity, zero input.  The source stack outputs -1 where the claimed stack
outputs gelu(-1) ≠ -1. -/
theorem C2_counterexample :
    (operatorBlockStack gelu (fun _ => zeroMap) cwBlocks zeroX).data 0 0 0 0 0 ≠
      (blockStackSpecClaim gelu (fun _ => zeroMap) cwBlocks zeroX).data 0 0 0 0 0 := by
  simp only [operatorBlockStack, blockStackSpecClaim, zeroMap, cwBlocks, zeroX, idNorm,
    tadd, tmap, show List.range 6 = [0, 1, 2, 3, 4, 5] from rfl,
    List.foldl_cons, List.foldl_nil]
  norm_num
  intro h
  exact gelu_neg_one_ne h.symm

/-- C2 amended: in the six-block operator stack of FNO2d_Multi.forward, each
block computes SpectralConv(latent) + PointwiseLinear(latent), and exactly
blocks 1-3 apply the GELU nonlinearity to this sum before passing it on,
while blocks 4-6 pass the raw sum forward (equivalence of the source stack
with the stack written from the amended sentence). -/
theorem C2_block_stack_amended (conv w : ℕ → Tensor5 ℝ → Tensor5 ℝ) (x : Tensor5 ℝ) :
    operatorBlockStack gelu conv w x = blockStackSpecAmended gelu conv w x := rfl

/-- C3 counterexample: with T_in = 1, T_out = 2, step = 2 (T_out a multiple of
step, the window initially of length T_in, the model emitting exactly step
channels per call), the window does not have length T_in after the first
transition of the rollout loop: it has length step = 2. -/
theorem C3_counterexample :
    (2 ∣ 2) ∧ (∀ w : List ℝ, ((fun _ : List ℝ => [(0:ℝ), 0]) w).length = 2) ∧
    [(0:ℝ)].length = 1 ∧
    (rolloutLoop (fun _ : List ℝ => [(0:ℝ), 0]) (fun _ _ => 0) 2 [0, 0] 1 0
      ([0], [], 0)).1.length ≠ 1 :=
  ⟨by decide, fun _ => rfl, rfl, by decide⟩

/-- C3 amended: for every T_in, T_out, step with step ≤ T_in and T_out a
multiple of step, and a single-step model emitting exactly step time channels,
the sliding window has time-channel length exactly T_in after every
transition of the rollout loop, the prediction buffer grows by exactly step
channels per transition reaching length exactly T_out after T_out/step
transitions, and the second (full-horizon) loss compares the complete
concatenated buffer against the full horizon target. -/
theorem C3_rollout_invariants (model : List ℝ → List ℝ) (lossFn : List ℝ → List ℝ → ℝ)
    (step T_in T_out : ℕ) (xx yy : List ℝ)
    (hml : ∀ w, (model w).length = step)
    (hst : step ≤ T_in) (hdiv : step ∣ T_out) (hxx : xx.length = T_in) :
    (∀ k, k ≤ T_out / step →
      (rolloutLoop model lossFn step yy k 0 (xx, [], 0)).1.length = T_in ∧
      (rolloutLoop model lossFn step yy k 0 (xx, [], 0)).2.1.length = k * step) ∧
    (trainRollout model lossFn step T_out xx yy).2.1.length = T_out ∧
    trainFullLoss model lossFn step T_out xx yy =
      lossFn (trainRollout model lossFn step T_out xx yy).2.1 yy := by
  have hmain := rolloutLoop_lengths model lossFn step T_in yy hml hst
  refine ⟨?_, ?_, rfl⟩
  · intro k _
    have h := hmain k 0 xx [] 0 hxx
    exact ⟨h.1, by rw [h.2]; simp⟩
  · have h := hmain (T_out / step) 0 xx [] 0 hxx
    show (rolloutLoop model lossFn step yy (T_out / step) 0 (xx, [], 0)).2.1.length = T_out
    rw [h.2]
    simp [Nat.div_mul_cancel hdiv]

/-- C3 witness: the amended theorem applied at T_in = 2, T_out = 2, step = 1
with a concrete one-channel model; after T_out/step = 2 transitions the
buffer has length 2. -/
theorem C3_witness :
    (∀ w : List ℝ, ((fun _ : List ℝ => [(0:ℝ)]) w).length = 1) ∧
    1 ≤ 2 ∧ (1 ∣ 2) ∧ [(0:ℝ), 0].length = 2 ∧
    (trainRollout (fun _ : List ℝ => [(0:ℝ)]) (fun _ _ => 0) 1 2 [0, 0] [0, 0]).2.1.length = 2 :=
  ⟨fun _ => rfl, by decide, by decide, rfl,
    (C3_rollout_invariants (fun _ : List ℝ => [(0:ℝ)]) (fun _ _ => 0) 1 2 2 [0, 0] [0, 0]
      (fun _ => rfl) (by decide) (by decide) rfl).2.1⟩

/-- C4 counterexample: constructing a SpectralConv2d with modes1 = modes2 = 7,
which exceeds floor(8/2)+1 = 5 (the largest transformable mode count for an
8-point spatial axis), succeeds: the constructor performs no validation and
returns a layer, so there is no fatal construction-time error. -/
theorem C4_counterexample :
    8 / 2 + 1 < 7 ∧
    constructionSucceeds (SpectralConv2d.init 1 1 1 1 7 7 zeroW6 zeroW6) = true :=
  ⟨by decide, rfl⟩

/-- C4 amended: SpectralConv2d construction never fails and performs no
validation of the mode counts: for every choice of channel counts, modes1,
modes2 (including values exceeding floor(x_size/2)+1) the constructor returns
a layer storing exactly the requested modes1 and modes2, so an invalid mode
count can only surface later (at the first forward pass), not at
construction. -/
theorem C4_init_unvalidated (ict octm icd ocd m1 m2 : ℕ)
    (r1 r2 : ℕ → ℕ → ℕ → ℕ → ℕ → ℕ → ℂ) :
    ∃ L : SpectralConv2dLayer,
      SpectralConv2d.init ict octm icd ocd m1 m2 r1 r2 = Except.ok L ∧
      L.modes1 = m1 ∧ L.modes2 = m2 ∧
      L.in_channels_time = ict ∧ L.out_channels_time = octm ∧
      L.in_channels_dim = icd ∧ L.out_channels_dim = ocd :=
  ⟨_, rfl, rfl, rfl, rfl, rfl, rfl, rfl⟩

/-- C5: for each of the four normalization strategies, decode is the exact
affine inverse of encode on every tensor, once the normalizer is fitted on
data in whose support the strategy is defined: a positive eps for the
std-based strategies, and per-feature (resp. global) min strictly below max
together with low < high for the range (resp. min-max) strategy. -/
theorem C5_decode_encode_inverse (n d : ℕ) (xr : ℕ → ℕ → ℝ) (xq : ℕ → ℕ → ℚ)
    (eps : ℝ) (low high : ℚ)
    (heps : 0 < eps) (hlh : low < high)
    (hrange : ∀ j, j < d → RangeNormalizer.mymin n xq j < RangeNormalizer.mymax n xq j)
    (hminmax : MinMax_Normalizer.mymin n d xq < MinMax_Normalizer.mymax n d xq) :
    (∀ (y : ℕ → ℕ → ℝ) (i j : ℕ),
      UnitGaussianNormalizer.decode n xr eps (UnitGaussianNormalizer.encode n xr eps y) i j
        = y i j) ∧
    (∀ (y : ℕ → ℕ → ℝ) (i j : ℕ),
      GaussianNormalizer.decode n d xr eps (GaussianNormalizer.encode n d xr eps y) i j
        = y i j) ∧
    (∀ (y : ℕ → ℕ → ℚ) (i j : ℕ), j < d →
      RangeNormalizer.decode n xq low high (RangeNormalizer.encode n xq low high y) i j
        = y i j) ∧
    (∀ (y : ℕ → ℕ → ℚ) (i j : ℕ),
      MinMax_Normalizer.decode n d xq low high (MinMax_Normalizer.encode n d xq low high y) i j
        = y i j) := by
  refine ⟨?_, ?_, ?_, ?_⟩
  · intro y i j
    have hs : UnitGaussianNormalizer.std n xr j + eps ≠ 0 := by
      have h0 := Real.sqrt_nonneg
        ((∑ i in Finset.range n, (xr i j - UnitGaussianNormalizer.mean n xr j) ^ 2) /
          ((n : ℝ) - 1))
      unfold UnitGaussianNormalizer.std
      intro hcontra
      linarith
    unfold UnitGaussianNormalizer.decode UnitGaussianNormalizer.encode
    rw [div_mul_cancel₀ _ hs, sub_add_cancel]
  · intro y i j
    have hs : GaussianNormalizer.std n d xr + eps ≠ 0 := by
      have h0 := Real.sqrt_nonneg
        ((∑ i in Finset.range n, ∑ j in Finset.range d,
          (xr i j - GaussianNormalizer.mean n d xr) ^ 2) / ((n : ℝ) * d - 1))
      unfold GaussianNormalizer.std
      intro hcontra
      linarith
    unfold GaussianNormalizer.decode GaussianNormalizer.encode
    rw [div_mul_cancel₀ _ hs, sub_add_cancel]
  · intro y i j hj
    have ha : RangeNormalizer.a n xq low high j ≠ 0 := by
      unfold RangeNormalizer.a
      have h1 : (0:ℚ) < high - low := by linarith
      have h2 : (0:ℚ) < RangeNormalizer.mymax n xq j - RangeNormalizer.mymin n xq j := by
        have := hrange j hj
        linarith
      exact ne_of_gt (div_pos h1 h2)
    unfold RangeNormalizer.decode RangeNormalizer.encode
    rw [add_sub_cancel_right, mul_div_cancel_left₀ _ ha]
  · intro y i j
    have ha : MinMax_Normalizer.a n d xq low high ≠ 0 := by
      unfold MinMax_Normalizer.a
      have h1 : (0:ℚ) < high - low := by linarith
      have h2 : (0:ℚ) < MinMax_Normalizer.mymax n d xq - MinMax_Normalizer.mymin n d xq := by
        linarith
      exact ne_of_gt (div_pos h1 h2)
    unfold MinMax_Normalizer.decode MinMax_Normalizer.encode
    rw [add_sub_cancel_right, mul_div_cancel_left₀ _ ha]

/-- C5 witness: the round trip evaluated on concrete fitted data (two
samples, feature values 0 and 1, eps = 1, bounds [-1, 1]) and the concrete
point y = 7 (ℚ side) / y = 7 (ℝ side). -/
theorem C5_witness :
    (0:ℝ) < 1 ∧ (-1:ℚ) < 1 ∧
    (∀ j, j < 1 → RangeNormalizer.mymin 2 sampleQData j < RangeNormalizer.mymax 2 sampleQData j) ∧
    MinMax_Normalizer.mymin 2 1 sampleQData < MinMax_Normalizer.mymax 2 1 sampleQData ∧
    UnitGaussianNormalizer.decode 2 (fun _ _ => (0:ℝ)) 1
      (UnitGaussianNormalizer.encode 2 (fun _ _ => (0:ℝ)) 1 (fun _ _ => 7)) 0 0 = 7 ∧
    MinMax_Normalizer.decode 2 1 sampleQData (-1) 1
      (MinMax_Normalizer.encode 2 1 sampleQData (-1) 1 (fun _ _ => 7)) 0 0 = 7 :=
  ⟨zero_lt_one, by decide, by decide, by decide,
    (C5_decode_encode_inverse 2 1 (fun _ _ => (0:ℝ)) sampleQData 1 (-1) 1
      zero_lt_one (by decide) (by decide) (by decide)).1 (fun _ _ => 7) 0 0,
    (C5_decode_encode_inverse 2 1 (fun _ _ => (0:ℝ)) sampleQData 1 (-1) 1
      zero_lt_one (by decide) (by decide) (by decide)).2.2.2 (fun _ _ => 7) 0 0⟩

/-- C6: a MinMax_Normalizer fitted on data with global minimum m and maximum
M (M > m) encodes every entry equal to m to the configured low bound and
every entry equal to M to the configured high bound, exactly (the fitted
coefficients being a = (high-low)/(M-m) and b = -a*M + high). -/
theorem C6_minmax_maps_extremes (n d : ℕ) (x : ℕ → ℕ → ℚ) (low high : ℚ)
    (hmm : MinMax_Normalizer.mymin n d x < MinMax_Normalizer.mymax n d x)
    (y : ℕ → ℕ → ℚ) (i j : ℕ) :
    (y i j = MinMax_Normalizer.mymin n d x →
      MinMax_Normalizer.encode n d x low high y i j = low) ∧
    (y i j = MinMax_Normalizer.mymax n d x →
      MinMax_Normalizer.encode n d x low high y i j = high) := by
  have hne : MinMax_Normalizer.mymax n d x - MinMax_Normalizer.mymin n d x ≠ 0 :=
    sub_ne_zero.mpr (ne_of_gt hmm)
  have key : MinMax_Normalizer.a n d x low high *
      (MinMax_Normalizer.mymax n d x - MinMax_Normalizer.mymin n d x) = high - low := by
    unfold MinMax_Normalizer.a
    exact div_mul_cancel₀ _ hne
  constructor
  · intro hy
    unfold MinMax_Normalizer.encode MinMax_Normalizer.b
    rw [hy]
    linear_combination (-1 : ℚ) * key
  · intro hy
    unfold MinMax_Normalizer.encode MinMax_Normalizer.b
    rw [hy]
    ring

/-- C6 witness: on the concrete fitted data (entries 0 and 1, bounds
[-1, 1]), the entry equal to the global maximum encodes to high = 1 and the
entry equal to the global minimum encodes to low = -1. -/
theorem C6_witness :
    MinMax_Normalizer.mymin 2 1 sampleQData < MinMax_Normalizer.mymax 2 1 sampleQData ∧
    MinMax_Normalizer.encode 2 1 sampleQData (-1) 1 sampleQData 1 0 = 1 ∧
    MinMax_Normalizer.encode 2 1 sampleQData (-1) 1 sampleQData 0 0 = -1 :=
  ⟨by decide,
    (C6_minmax_maps_extremes 2 1 sampleQData (-1) 1 (by decide) sampleQData 1 0).2 (by decide),
    (C6_minmax_maps_extremes 2 1 sampleQData (-1) 1 (by decide) sampleQData 0 0).1 (by decide)⟩

/-- C7: on degenerate (constant) fitted input the std-based normalizers never
divide by zero: their fitted std is exactly 0 and the denominator used in
both encode and decode, std + eps, equals eps and is nonzero whenever
eps > 0.  The min-max and range normalizers instead compute their scale as a
division by (max - min), which on constant input is 0, with no guard and no
substituted default: the fitted scale is literally (high - low) / 0. -/
theorem C7_degenerate_fitted_input (n d : ℕ) (xr : ℕ → ℕ → ℝ) (xq : ℕ → ℕ → ℚ)
    (c : ℝ) (q : ℚ) (eps : ℝ) (low high : ℚ)
    (hn : 0 < n) (hd : 0 < d) (heps : 0 < eps)
    (hcr : ∀ i, i < n → ∀ j, j < d → xr i j = c)
    (hcq : ∀ i, i < n → ∀ j, j < d → xq i j = q) :
    (∀ j, j < d → UnitGaussianNormalizer.std n xr j = 0 ∧
      UnitGaussianNormalizer.std n xr j + eps = eps ∧
      UnitGaussianNormalizer.std n xr j + eps ≠ 0) ∧
    (GaussianNormalizer.std n d xr = 0 ∧
      GaussianNormalizer.std n d xr + eps = eps ∧
      GaussianNormalizer.std n d xr + eps ≠ 0) ∧
    (MinMax_Normalizer.mymax n d xq - MinMax_Normalizer.mymin n d xq = 0 ∧
      MinMax_Normalizer.a n d xq low high = (high - low) / 0) ∧
    (∀ j, j < d → RangeNormalizer.mymax n xq j - RangeNormalizer.mymin n xq j = 0 ∧
      RangeNormalizer.a n xq low high j = (high - low) / 0) := by
  have hn' : (n : ℝ) ≠ 0 := Nat.cast_ne_zero.mpr hn.ne'
  refine ⟨?_, ?_, ?_, ?_⟩
  · intro j hj
    have hmean : UnitGaussianNormalizer.mean n xr j = c := by
      unfold UnitGaussianNormalizer.mean
      rw [Finset.sum_congr rfl (fun i hi => hcr i (Finset.mem_range.mp hi) j hj),
        Finset.sum_const, Finset.card_range, nsmul_eq_mul]
      exact mul_div_cancel_left₀ c hn'
    have hstd : UnitGaussianNormalizer.std n xr j = 0 := by
      unfold UnitGaussianNormalizer.std
      have h0 : ∀ i ∈ Finset.range n,
          (xr i j - UnitGaussianNormalizer.mean n xr j) ^ 2 = 0 := by
        intro i hi
        rw [hcr i (Finset.mem_range.mp hi) j hj, hmean]
        ring
      rw [Finset.sum_congr rfl h0, Finset.sum_const, smul_zero, zero_div, Real.sqrt_zero]
    exact ⟨hstd, by rw [hstd, zero_add], by rw [hstd, zero_add]; exact heps.ne'⟩
  · have hnd : ((n : ℝ) * d) ≠ 0 :=
      mul_ne_zero hn' (Nat.cast_ne_zero.mpr hd.ne')
    have hmean : GaussianNormalizer.mean n d xr = c := by
      unfold GaussianNormalizer.mean
      have hrow : ∀ i ∈ Finset.range n, (∑ j in Finset.range d, xr i j) = (d : ℝ) * c := by
        intro i hi
        rw [Finset.sum_congr rfl (fun j hj => hcr i (Finset.mem_range.mp hi) j
          (Finset.mem_range.mp hj)), Finset.sum_const, Finset.card_range, nsmul_eq_mul]
      rw [Finset.sum_congr rfl hrow, Finset.sum_const, Finset.card_range, nsmul_eq_mul]
      rw [show (n : ℝ) * ((d : ℝ) * c) = ((n : ℝ) * d) * c by ring]
      exact mul_div_cancel_left₀ c hnd
    have hstd : GaussianNormalizer.std n d xr = 0 := by
      unfold GaussianNormalizer.std
      have h0 : ∀ i ∈ Finset.range n,
          (∑ j in Finset.range d, (xr i j - GaussianNormalizer.mean n d xr) ^ 2) = 0 := by
        intro i hi
        apply Finset.sum_eq_zero
        intro j hj
        rw [hcr i (Finset.mem_range.mp hi) j (Finset.mem_range.mp hj), hmean]
        ring
      rw [Finset.sum_congr rfl h0, Finset.sum_const, smul_zero, zero_div, Real.sqrt_zero]
    exact ⟨hstd, by rw [hstd, zero_add], by rw [hstd, zero_add]; exact heps.ne'⟩
  · have hz : MinMax_Normalizer.mymax n d xq - MinMax_Normalizer.mymin n d xq = 0 := by
      rw [minmax_mymax_const n d xq q hn hd hcq, minmax_mymin_const n d xq q hn hd hcq,
        sub_self]
    exact ⟨hz, by unfold MinMax_Normalizer.a; rw [hz]⟩
  · intro j hj
    have hz : RangeNormalizer.mymax n xq j - RangeNormalizer.mymin n xq j = 0 := by
      rw [range_mymax_const n d xq q j hn hj hcq, range_mymin_const n d xq q j hn hj hcq,
        sub_self]
    exact ⟨hz, by unfold RangeNormalizer.a; rw [hz]⟩

/-- C7 witness: the theorem applied to concrete constant fitted data (two
samples, one feature, value 5 on the ℝ side and 3 on the ℚ side, eps = 1):
the unit-gaussian denominator equals eps and the min-max scale is a division
by zero. -/
theorem C7_witness :
    0 < 2 ∧ 0 < 1 ∧ (0:ℝ) < 1 ∧
    (UnitGaussianNormalizer.std 2 (fun _ _ => (5:ℝ)) 0 + 1 = 1 ∧
      UnitGaussianNormalizer.std 2 (fun _ _ => (5:ℝ)) 0 + 1 ≠ 0) ∧
    MinMax_Normalizer.a 2 1 (fun _ _ => (3:ℚ)) (-1) 1 = (1 - (-1)) / 0 :=
  ⟨by decide, by decide, zero_lt_one,
    (fun h => ⟨h.2.1, h.2.2⟩)
      ((C7_degenerate_fitted_input 2 1 (fun _ _ => (5:ℝ)) (fun _ _ => (3:ℚ)) 5 3 1 (-1) 1
        (by decide) (by decide) zero_lt_one (fun _ _ _ _ => rfl) (fun _ _ _ _ => rfl)).1 0
        (by decide)),
    (C7_degenerate_fitted_input 2 1 (fun _ _ => (5:ℝ)) (fun _ _ => (3:ℚ)) 5 3 1 (-1) 1
      (by decide) (by decide) zero_lt_one (fun _ _ _ _ => rfl) (fun _ _ _ _ => rfl)).2.2.1.2⟩

/-- C8: the lift head is the single per-point linear map fc0 from T_in + 2
channels (the T_in window channels followed by the x and y coordinate
channels) to the latent width, acting at each (batch, variable, x, y)
location on that location's channels only; the projection head is exactly
fc2 ∘ gelu ∘ fc1, two stacked per-point linear maps width → 128 → step with
a GELU between them and none after the second; and neither head changes the
batch, variable or spatial axis sizes (the lift output has channel size
width, the projection output channel size step). -/
theorem C8_lift_project_heads (M : FNO2dMulti) (x : Tensor5 ℝ) (hx : x.n4 = M.T_in) :
    ((M.liftHead x).n0 = x.n0 ∧ (M.liftHead x).n1 = x.n1 ∧
     (M.liftHead x).n2 = x.n2 ∧ (M.liftHead x).n3 = x.n3 ∧
     (M.liftHead x).n4 = M.width) ∧
    (∀ b v xi yi k, (M.liftHead x).data b v xi yi k =
      (∑ c in Finset.range M.T_in, M.fc0w k c * x.data b v xi yi c) +
        M.fc0w k M.T_in * M.gridX xi + M.fc0w k (M.T_in + 1) * M.gridY yi + M.fc0b k) ∧
    (∀ t : Tensor5 ℝ, (M.projHead t).n0 = t.n0 ∧ (M.projHead t).n1 = t.n1 ∧
     (M.projHead t).n2 = t.n2 ∧ (M.projHead t).n3 = t.n3 ∧
     (M.projHead t).n4 = M.step) ∧
    (∀ (t : Tensor5 ℝ) (b v xi yi k), (M.projHead t).data b v xi yi k =
      (∑ h in Finset.range 128, M.fc2w k h *
        gelu ((∑ c in Finset.range M.width, M.fc1w h c * t.data b v xi yi c) + M.fc1b h)) +
        M.fc2b k) := by
  refine ⟨⟨rfl, rfl, rfl, rfl, rfl⟩, ?_, fun t => ⟨rfl, rfl, rfl, rfl, rfl⟩, fun t b v xi yi k => rfl⟩
  intro b v xi yi k
  simp only [FNO2dMulti.liftHead, linearLast, concatGrid]
  rw [← hx, Finset.sum_range_succ, Finset.sum_range_succ]
  have h1 : ∀ c ∈ Finset.range x.n4,
      M.fc0w k c * (if c < x.n4 then x.data b v xi yi c
        else if c = x.n4 then M.gridX xi else M.gridY yi) =
      M.fc0w k c * x.data b v xi yi c := by
    intro c hc
    rw [if_pos (Finset.mem_range.mp hc)]
  rw [Finset.sum_congr rfl h1, if_neg (by omega), if_pos rfl, if_neg (by omega),
    if_neg (by omega)]

/-- C8 witness: the theorem applied to the concrete model and an input with a
matching time-channel count; the lift preserves the leading sizes and emits
width channels, the projection emits step channels. -/
theorem C8_witness :
    sampleX5.n4 = sampleModel.T_in ∧
    (sampleModel.liftHead sampleX5).n2 = sampleX5.n2 ∧
    (sampleModel.liftHead sampleX5).n4 = sampleModel.width ∧
    (sampleModel.projHead sampleX5).n4 = sampleModel.step :=
  ⟨rfl,
    (C8_lift_project_heads sampleModel sampleX5 rfl).1.2.2.1,
    (C8_lift_project_heads sampleModel sampleX5 rfl).1.2.2.2.2,
    ((C8_lift_project_heads sampleModel sampleX5 rfl).2.2.1 sampleX5).2.2.2.2⟩

/-- C9: inference is a deterministic function of the weights and the input:
two models whose configuration, coordinate arrays and every weight tensor
coincide produce identical outputs of FNO2d_Multi.forward on every input
(the forward pass contains no stochastic layer, so repeated invocations give
the same result). -/
theorem C9_forward_deterministic (M N : FNO2dMulti) (x : Tensor5 ℝ)
    (h1 : M.T_in = N.T_in) (h2 : M.num_vars = N.num_vars) (h3 : M.step = N.step)
    (h4 : M.width = N.width) (h5 : M.modes1 = N.modes1) (h6 : M.modes2 = N.modes2)
    (h7 : M.gridX = N.gridX) (h8 : M.gridY = N.gridY)
    (h9 : M.fc0w = N.fc0w) (h10 : M.fc0b = N.fc0b)
    (h11 : M.convs = N.convs) (h12 : M.wW = N.wW) (h13 : M.wB = N.wB)
    (h14 : M.fc1w = N.fc1w) (h15 : M.fc1b = N.fc1b)
    (h16 : M.fc2w = N.fc2w) (h17 : M.fc2b = N.fc2b) :
    FNO2dMulti.forward M x = FNO2dMulti.forward N x := by
  obtain ⟨a1, a2, a3, a4, a5, a6, a7, a8, a9, a10, a11, a12, a13, a14, a15, a16, a17⟩ := M
  obtain ⟨b1, b2, b3, b4, b5, b6, b7, b8, b9, b10, b11, b12, b13, b14, b15, b16, b17⟩ := N
  simp only at h1 h2 h3 h4 h5 h6 h7 h8 h9 h10 h11 h12 h13 h14 h15 h16 h17
  subst h1 h2 h3 h4 h5 h6 h7 h8 h9 h10 h11 h12 h13 h14 h15 h16 h17
  rfl

/-- C9 witness: two concrete models with identical weights give identical
outputs on a concrete input. -/
theorem C9_witness :
    sampleModel.fc0w = sampleModel2.fc0w ∧
    FNO2dMulti.forward sampleModel sampleX5 = FNO2dMulti.forward sampleModel2 sampleX5 :=
  ⟨rfl, C9_forward_deterministic sampleModel sampleModel2 sampleX5
    rfl rfl rfl rfl rfl rfl rfl rfl rfl rfl rfl rfl rfl rfl rfl rfl rfl⟩

/-- C10: LpLoss.__call__ delegates to LpLoss.rel, which divides each
example's difference norm by that example's target norm with no guard, so a
batch containing an example whose target row is entirely zero yields a
non-finite loss (`none` in the embedding) for both reduction modes (mean and
sum), rather than an error. -/
theorem C10_lploss_zero_target_nonfinite (p : ℝ) (sizeAverage : Bool) (nb d : ℕ)
    (x y : ℕ → ℕ → ℝ) (e : ℕ) (hp : 0 < p) (he : e < nb)
    (hy : ∀ j, j < d → y e j = 0) :
    LpLoss.call p sizeAverage nb d x y = none := by
  have hnorm : pnorm p d (y e) = 0 := by
    unfold pnorm
    have h0 : ∀ j ∈ Finset.range d, |y e j| ^ p = 0 := by
      intro j hj
      rw [hy j (Finset.mem_range.mp hj), abs_zero]
      exact Real.zero_rpow hp.ne'
    rw [Finset.sum_congr rfl h0, Finset.sum_const, smul_zero]
    exact Real.zero_rpow (one_div_ne_zero hp.ne')
  have hratio : fdiv (pnorm p d (fun j => x e j - y e j)) (pnorm p d (y e)) = none := by
    rw [hnorm]
    unfold fdiv
    rw [if_pos rfl]
  have hz := osum_eq_none
    (fun e2 => fdiv (pnorm p d fun j => x e2 j - y e2 j) (pnorm p d (y e2))) nb e he hratio
  unfold LpLoss.call LpLoss.rel
  show (if sizeAverage = true then
      Option.map (fun v => v / (nb : ℝ))
        (osum (fun e2 => fdiv (pnorm p d fun j => x e2 j - y e2 j) (pnorm p d (y e2))) nb)
    else
      osum (fun e2 => fdiv (pnorm p d fun j => x e2 j - y e2 j) (pnorm p d (y e2))) nb) = none
  rw [hz]
  cases sizeAverage <;> rfl

/-- C10 witness: the loss of a singleton batch against an all-zero target is
non-finite, for the torch defaults p = 2 and for both reduction modes. -/
theorem C10_witness :
    (0:ℝ) < 2 ∧ 0 < 1 ∧
    LpLoss.call 2 true 1 1 (fun _ _ => (1:ℝ)) (fun _ _ => 0) = none ∧
    LpLoss.call 2 false 1 1 (fun _ _ => (1:ℝ)) (fun _ _ => 0) = none :=
  ⟨zero_lt_two, by decide,
    C10_lploss_zero_target_nonfinite 2 true 1 1 (fun _ _ => (1:ℝ)) (fun _ _ => 0) 0
      zero_lt_two (by decide) (fun _ _ => rfl),
    C10_lploss_zero_target_nonfinite 2 false 1 1 (fun _ _ => (1:ℝ)) (fun _ _ => 0) 0
      zero_lt_two (by decide) (fun _ _ => rfl)⟩
